import Mathlib

/-!
Verification of the implicit-free-list allocator in `mm.c`.

The allocator manages a byte-addressed heap.  Every header/footer access in
the source is a 4-byte-aligned `unsigned int` read or write, so memory is
modelled as a total function from (4-aligned, byte) addresses to word values;
`GET` truncates to 32 bits just as the C `unsigned int` load does.  The heap
starts at address 0 (`mem_heap_lo`) and currently extends to `brk` bytes;
`mem_sbrk` succeeds exactly when the requested growth stays within
`maxHeap`, modelling the growth primitive's exhaustion (memlib's MAX_HEAP).
The backing buffer is modelled as zero-initialised.

The `while` loop of `mm_malloc` is translated with an explicit fuel
parameter; running out of fuel yields a distinguished `diverge` result, so
no behaviour is invented for heaps on which the C loop would not terminate.
The `assert` in `extend_heap` likewise yields a distinguished `abortAssert`
result when its condition fails.  The `printf` on the merge path of
`coalesce` does not touch the heap and is not modelled.
-/

namespace MM

/-- Word-addressed heap memory: the 32-bit word stored at each 4-aligned
byte address.  All accesses in the source are at 4-aligned addresses. -/
abbrev Mem := Nat → Nat

/-- 2^32, the number of values of the C `unsigned int` used for each
header/footer word. -/
def W32 : Nat := 4294967296

/-- Allocator state: heap words, current break (heap size in bytes,
`mem_heap_lo` is address 0), the growth primitive's capacity, and the
static `heap_startp` pointer of mm.c. -/
structure MMState where
  mem : Mem
  brk : Nat
  maxHeap : Nat
  heap_startp : Nat

/-- `GET(p)`: read the `unsigned int` at address `p` (truncated to 32 bits,
as the 4-byte load is). -/
def GET (m : Mem) (p : Nat) : Nat := m p % W32

/-- `PUT(p, val)`: store a word at address `p`. -/
def PUT (m : Mem) (p v : Nat) : Mem := fun q => if q = p then v else m q

/-- `PACK(size, alloc) = (size | alloc)`. -/
def PACK (size alloc : Nat) : Nat := size ||| alloc

/-- `GET_SIZE(p) = GET(p) & ~0x7`: clearing the low three bits of a 32-bit
value rounds it down to a multiple of 8, i.e. `v / 8 * 8`. -/
def GET_SIZE (m : Mem) (p : Nat) : Nat := GET m p / 8 * 8

/-- `GET_ALLOC(p) = GET(p) & 1`, i.e. the value mod 2. -/
def GET_ALLOC (m : Mem) (p : Nat) : Nat := GET m p % 2

/-- `HDRP(bp) = bp - 4`. -/
def HDRP (bp : Nat) : Nat := bp - 4

/-- `FTRP(bp) = bp + GET_SIZE(HDRP(bp)) - 8`. -/
def FTRP (m : Mem) (bp : Nat) : Nat := bp + GET_SIZE m (HDRP bp) - 8

/-- `NEXT_BLKP(bp) = bp + GET_SIZE(HDRP(bp))`. -/
def NEXT_BLKP (m : Mem) (bp : Nat) : Nat := bp + GET_SIZE m (HDRP bp)

/-- `PREV_BLKP(bp) = bp - GET_SIZE(bp - 8)`. -/
def PREV_BLKP (m : Mem) (bp : Nat) : Nat := bp - GET_SIZE m (bp - 8)

/-- `ALIGN(size)`: round up to the next multiple of `ALIGNMENT = 8`
(`(size + 7) & ~0x7`). -/
def ALIGN (size : Nat) : Nat := (size + 7) / 8 * 8

/-- `mem_sbrk(incr)`: extend the heap by `incr` bytes, returning the old
break (the start of the new area), or `none` (the C `(void *)-1`) when the
growth primitive is exhausted.  A failed call leaves the heap unchanged. -/
def mem_sbrk (st : MMState) (incr : Nat) : Option (MMState × Nat) :=
  if st.brk + incr ≤ st.maxHeap then some ({ st with brk := st.brk + incr }, st.brk)
  else none

/-- `mem_heap_hi()`: address of the last byte of the heap. -/
def mem_heap_hi (st : MMState) : Nat := st.brk - 1

/-- Result of a pointer-returning allocator call: a payload pointer, the C
`NULL` return, a failed `assert`, or (for the fuel-based malloc loop only)
non-termination. -/
inductive PtrRes where
  | ok (st : MMState) (bp : Nat)
  | null (st : MMState)
  | abortAssert
  | diverge
deriving Inhabited

/-- State carried by an `ok`/`null` result, with a default otherwise. -/
def PtrRes.stD : PtrRes → MMState → MMState
  | .ok st _, _ => st
  | .null st, _ => st
  | _, d => d

/-- Pointer carried by an `ok` result, 0 otherwise. -/
def PtrRes.bpD : PtrRes → Nat
  | .ok _ bp => bp
  | _ => 0

/-- `mm_init`: sbrk 4 words, write the padding word, the size-8 allocated
prologue header and footer, and the size-0 allocated epilogue header; point
`heap_startp` at the prologue payload.  `none` models the `-1` return. -/
def mm_init (st : MMState) : Option MMState :=
  match mem_sbrk st (4 * 4) with
  | none => none
  | some (st1, _) =>
    let heap_start := 0
    let m := PUT st1.mem heap_start 0
    let m := PUT m (heap_start + 4) (PACK 8 1)
    let m := PUT m (heap_start + 8) (PACK 8 1)
    let m := PUT m (heap_start + 12) (PACK 0 1)
    some { st1 with mem := m, heap_startp := heap_start + 8 }

/-- `coalesce(bp)`: if the predecessor block is allocated return `bp`
unchanged; otherwise merge with the predecessor only (the successor is
never examined), keeping the predecessor's header and this block's footer.
Returns the updated state and the returned payload pointer. -/
def coalesce (st : MMState) (bp : Nat) : MMState × Nat :=
  let prev := PREV_BLKP st.mem bp
  if GET_ALLOC st.mem (HDRP prev) ≠ 0 then (st, bp)
  else
    let newsize := GET_SIZE st.mem (HDRP bp) + GET_SIZE st.mem (HDRP prev)
    let m := PUT st.mem (HDRP prev) (PACK newsize 0)
    let m := PUT m (FTRP m bp) (PACK newsize 0)
    ({ st with mem := m }, prev)

/-- `extend_heap` after its trailing-block inspection: sbrk `newsize`
bytes, write the new free block's header and footer, write `PACK(0,1)` at
`NEXT_BLKP(bp)` (the source's epilogue write), then coalesce. -/
def extendCore (st : MMState) (newsize : Nat) : PtrRes :=
  match mem_sbrk st newsize with
  | none => .null st
  | some (st1, bp) =>
    let m := PUT st1.mem (HDRP bp) (PACK newsize 0)
    let m := PUT m (FTRP m bp) (PACK newsize 0)
    let m := PUT m (NEXT_BLKP m bp) (PACK 0 1)
    let res := coalesce { st1 with mem := m } bp
    .ok res.1 res.2

/-- `extend_heap(newsize)`: compute `epilogue_bp = mem_heap_hi() - 3`, take
`last = PREV_BLKP(epilogue_bp)`; if `last`'s header says free, assert
`size_last < newsize` and subtract `size_last` from the request; then grow
and lay out the new block. -/
def extend_heap (st : MMState) (newsize : Nat) : PtrRes :=
  let epilogue_bp := mem_heap_hi st - 3
  let last := PREV_BLKP st.mem epilogue_bp
  if GET_ALLOC st.mem (HDRP last) = 0 then
    let size_last := GET_SIZE st.mem (HDRP last)
    if size_last < newsize then extendCore st (newsize - size_last)
    else .abortAssert
  else extendCore st newsize

/-- `split(bp, newsize)`: shrink the block at `bp` to `newsize` (allocated)
and write a free header/footer over the remainder.  Each macro argument is
evaluated against the memory at that statement, as in the source. -/
def split (st : MMState) (bp newsize : Nat) : MMState :=
  let free_size := GET_SIZE st.mem (HDRP bp)
  let remaining := free_size - newsize
  let m := PUT st.mem (HDRP bp) (PACK newsize 1)
  let m := PUT m (FTRP m bp) (PACK newsize 1)
  let m := PUT m (HDRP (NEXT_BLKP m bp)) (PACK remaining 0)
  let m := PUT m (FTRP m (NEXT_BLKP m bp)) (PACK remaining 0)
  { st with mem := m }

/-- Fitting condition of the first-fit search:
`!GET_ALLOC(HDRP(bp)) && GET_SIZE(HDRP(bp)) >= newsize`. -/
abbrev isFit (m : Mem) (newsize bp : Nat) : Prop :=
  GET_ALLOC m (HDRP bp) = 0 ∧ newsize ≤ GET_SIZE m (HDRP bp)

/-- Verification-side walk of the implicit block list: the payload
pointers of the blocks visited from `current` onward, stopping
(exclusively) at the first zero-size header — the same visit order and
stopping rule as the first-fit loop of `mm_malloc`, with the same fuel
bound. -/
def blocksFrom (m : Mem) : Nat → Nat → List Nat
  | 0, _ => []
  | fuel + 1, current =>
    if GET_SIZE m (HDRP current) = 0 then []
    else current :: blocksFrom m fuel (NEXT_BLKP m current)

/-- The header/footer stamping `mm_malloc` performs on the block it
returns: `PUT(HDRP(bp), PACK(newsize,1)); PUT(FTRP(bp), PACK(newsize,1))`. -/
def placeAt (st : MMState) (bp newsize : Nat) : PtrRes :=
  let m := PUT st.mem (HDRP bp) (PACK newsize 1)
  let m := PUT m (FTRP m bp) (PACK newsize 1)
  .ok { st with mem := m } bp

/-- The no-fit path of `mm_malloc`: extend the heap, propagate `NULL`, and
stamp the returned block. -/
def extendAndPlace (st : MMState) (newsize : Nat) : PtrRes :=
  match extend_heap st newsize with
  | .ok st1 bp => placeAt st1 bp newsize
  | r => r

/-- The `while` loop of `mm_malloc`, with fuel: stop at a zero-size header
and fall back to heap extension; at the first fitting free block, split if
its size differs from `newsize` and stamp it allocated; otherwise advance
to the next block. -/
def mallocLoop (st : MMState) (newsize : Nat) : Nat → Nat → PtrRes
  | 0, _ => .diverge
  | fuel + 1, current =>
    if GET_SIZE st.mem (HDRP current) = 0 then
      extendAndPlace st newsize
    else if isFit st.mem newsize current then
      placeAt (if GET_SIZE st.mem (HDRP current) ≠ newsize then split st current newsize else st)
        current newsize
    else
      mallocLoop st newsize fuel (NEXT_BLKP st.mem current)

/-- `mm_malloc(size)`: round to `newsize = ALIGN(size + 8)` and run the
first-fit loop from `heap_startp`. -/
def mm_malloc (st : MMState) (size fuel : Nat) : PtrRes :=
  mallocLoop st (ALIGN (size + 8)) fuel st.heap_startp

/-- `mm_free(ptr)`: rewrite the block's header and footer with the
allocated bit cleared, then coalesce (the returned pointer is discarded). -/
def mm_free (st : MMState) (ptr : Nat) : MMState :=
  let size := GET_SIZE st.mem (HDRP ptr)
  let m := PUT st.mem (HDRP ptr) (PACK size 0)
  let m := PUT m (FTRP m ptr) (PACK size 0)
  (coalesce { st with mem := m } ptr).1

/-- The memory after the two header/footer writes of `mm_free ptr`, before
its call to `coalesce` (spelled exactly as the writes appear there). -/
def freedMem (m : Mem) (ptr : Nat) : Mem :=
  PUT (PUT m (HDRP ptr) (PACK (GET_SIZE m (HDRP ptr)) 0))
    (FTRP (PUT m (HDRP ptr) (PACK (GET_SIZE m (HDRP ptr)) 0)) ptr)
    (PACK (GET_SIZE m (HDRP ptr)) 0)

/-- The memory written by `placeAt st bp n` (the two stamping `PUT`s of
`mm_malloc`), spelled exactly as they appear there. -/
def placedMem (m : Mem) (bp n : Nat) : Mem :=
  PUT (PUT m (HDRP bp) (PACK n 1)) (FTRP (PUT m (HDRP bp) (PACK n 1)) bp) (PACK n 1)

/-- `mm_realloc(ptr, size)`: the source's body is empty — it performs no
heap access and falls off the end, so no defined pointer is returned
(modelled as `none`) and the state is unchanged. -/
def mm_realloc (st : MMState) (_ptr _size : Nat) : MMState × Option Nat :=
  (st, none)

/-- A fresh allocator over a zero-initialised backing buffer whose growth
primitive can provide at most `maxH` bytes. -/
def initialState (maxH : Nat) : MMState :=
  { mem := fun _ => 0, brk := 0, maxHeap := maxH, heap_startp := 0 }

/-! ### Concrete traces used by the claims

All public-operation sequences below run over a 64-byte-capacity heap.
`stI` is the freshly initialised heap; `stA` is after `p = malloc(16)`
(which returns payload 16); `stF` after `free(p)`; `stB` after a further
`malloc(8)` (which splits the freed 24-byte block); `stG` after freeing
that 16-byte block again; `stE` after calling `extend_heap 16` on `stB`;
`st9E` after `malloc(0)` on the fresh heap. -/

def st64 : MMState := initialState 64

def st16cap : MMState := initialState 16

def stI16 : MMState := (mm_init st16cap).getD st16cap

def stI : MMState := (mm_init st64).getD st64

def rA : PtrRes := mm_malloc stI 16 9

def stA : MMState := rA.stD stI

def stF : MMState := mm_free stA 16

def rB : PtrRes := mm_malloc stF 8 9

def stB : MMState := rB.stD stF

def stG : MMState := mm_free stB 16

def stE : MMState := (extend_heap stB 16).stD stB

def st9E : MMState := (mm_malloc stI 0 9).stD stI

/-- Modelled from the spec: the minimum block size of §4.2 — large enough
to hold header and footer (8 bytes) plus enough payload to later host a
header and footer if the block is ever split again (8 more bytes).  The
source has no such constant; this definition exists only to state the
split-threshold claim in the spec's terms. -/
def minBlockSizeSpec : Nat := 16

theorem GET_lt (m : Mem) (p : Nat) : GET m p < W32 :=
  Nat.mod_lt _ (by decide)

theorem GET_SIZE_le (m : Mem) (p : Nat) : GET_SIZE m p ≤ GET m p :=
  Nat.div_mul_le_self _ _

theorem GET_SIZE_lt (m : Mem) (p : Nat) : GET_SIZE m p < W32 :=
  lt_of_le_of_lt (GET_SIZE_le m p) (GET_lt m p)

theorem GET_SIZE_dvd (m : Mem) (p : Nat) : 8 ∣ GET_SIZE m p :=
  dvd_mul_left 8 _

theorem GET_PUT_eq (m : Mem) (p v : Nat) : GET (PUT m p v) p = v % W32 := by
  simp [GET, PUT]

theorem GET_PUT_ne (m : Mem) (p v q : Nat) (h : q ≠ p) : GET (PUT m p v) q = GET m q := by
  simp [GET, PUT, h]

theorem GET_SIZE_PUT_ne (m : Mem) (p v q : Nat) (h : q ≠ p) :
    GET_SIZE (PUT m p v) q = GET_SIZE m q := by
  simp [GET_SIZE, GET_PUT_ne m p v q h]

theorem GET_ALLOC_PUT_ne (m : Mem) (p v q : Nat) (h : q ≠ p) :
    GET_ALLOC (PUT m p v) q = GET_ALLOC m q := by
  simp [GET_ALLOC, GET_PUT_ne m p v q h]

theorem GET_SIZE_PUT_eq (m : Mem) (p v : Nat) (h8 : 8 ∣ v) (hv : v < W32) :
    GET_SIZE (PUT m p v) p = v := by
  rw [GET_SIZE, GET_PUT_eq, Nat.mod_eq_of_lt hv, Nat.div_mul_cancel h8]

theorem lor_one_eq_add (s : Nat) (h : s % 2 = 0) : s ||| 1 = s + 1 := by
  apply Nat.eq_of_testBit_eq
  intro i
  cases i with
  | zero =>
    rw [Nat.testBit_lor]
    simp [Nat.testBit_zero]
    omega
  | succ i =>
    rw [Nat.testBit_lor, Nat.testBit_add_one, Nat.testBit_add_one, Nat.testBit_add_one]
    have h2 : (s + 1) / 2 = s / 2 := by omega
    have h1 : (1 : Nat) / 2 = 0 := by decide
    rw [h2, h1]
    simp

theorem PACK_zero (s : Nat) : PACK s 0 = s := Nat.or_zero s

theorem PACK_one (s : Nat) (h : 8 ∣ s) : PACK s 1 = s + 1 :=
  lor_one_eq_add s (by omega)

theorem split_brk (st : MMState) (bp n : Nat) : (split st bp n).brk = st.brk := rfl

theorem PUT_self (m : Mem) (p v : Nat) : PUT m p v p = v := by simp [PUT]

theorem PUT_ne (m : Mem) (p v q : Nat) (h : q ≠ p) : PUT m p v q = m q := by
  simp [PUT, h]

theorem mm_free_eq (st : MMState) (ptr : Nat) :
    mm_free st ptr = (coalesce { st with mem := freedMem st.mem ptr } ptr).1 := rfl

theorem freedMem_footer (m : Mem) (ptr : Nat) :
    freedMem m ptr =
      PUT (PUT m (HDRP ptr) (PACK (GET_SIZE m (HDRP ptr)) 0))
        (ptr + GET_SIZE m (HDRP ptr) - 8) (PACK (GET_SIZE m (HDRP ptr)) 0) := by
  rw [freedMem, FTRP, PACK_zero, GET_SIZE_PUT_eq _ _ _ (GET_SIZE_dvd m _) (GET_SIZE_lt m _)]

example : stI.brk = 16 ∧ stI.heap_startp = 8 := by decide

example : rA.bpD = 16 ∧ stA.brk = 40 := by decide

example : GET_SIZE stF.mem (HDRP 16) = 24 ∧ GET_ALLOC stF.mem (HDRP 16) = 0 := by decide

example : rB.bpD = 16 ∧ GET_SIZE stB.mem (HDRP 32) = 8 := by decide

example : GET_ALLOC stG.mem (HDRP 16) = 0 ∧ GET_ALLOC stG.mem (HDRP 32) = 0 := by decide

example : stE.brk = 56 ∧ GET_SIZE stE.mem (HDRP 32) = 24 := by decide

example : (mm_malloc stI 0 9).bpD = 16 ∧ st9E.brk = 24 := by decide

/-- C1.  In the reachable state `stB` (init; malloc 16; free; malloc 8),
the block at payload 16 is allocated with size 16 and its successor block
at payload 32 is free with size 8.  Calling `free` on 16 is required by the
claim to merge the two into one free block (header of 16 kept, size
16 + 8 = 24).  Instead the code leaves two separate blocks — the header of
block 16 still records size 16, the successor's header still records 8,
and both are free — because `coalesce` examines only the predecessor.  The
claim is false on the code. -/
theorem free_does_not_merge_free_successor :
    GET_ALLOC stB.mem (HDRP 16) = 1 ∧ GET_SIZE stB.mem (HDRP 16) = 16 ∧
    NEXT_BLKP stB.mem 16 = 32 ∧
    GET_ALLOC stB.mem (HDRP 32) = 0 ∧ GET_SIZE stB.mem (HDRP 32) = 8 ∧
    GET_ALLOC stG.mem (HDRP 16) = 0 ∧ GET_SIZE stG.mem (HDRP 16) = 16 ∧
    GET_ALLOC stG.mem (HDRP 32) = 0 ∧ GET_SIZE stG.mem (HDRP 32) = 8 ∧
    GET_SIZE stG.mem (HDRP 16) ≠
      GET_SIZE stB.mem (HDRP 16) + GET_SIZE stB.mem (HDRP 32) := by
  decide

/-- C2.  After the public-operation sequence init; malloc 16; free;
malloc 8; free — every call a public allocator operation — the heap `stG`
contains two consecutive blocks (payloads 16 and 32, the second being
`NEXT_BLKP` of the first) that are both free and both of nonzero size, so
the no-adjacent-free invariant does not hold of all reachable states. -/
theorem adjacent_free_blocks_reachable :
    NEXT_BLKP stG.mem 16 = 32 ∧
    GET_ALLOC stG.mem (HDRP 16) = 0 ∧
    GET_ALLOC stG.mem (HDRP (NEXT_BLKP stG.mem 16)) = 0 ∧
    GET_SIZE stG.mem (HDRP 16) ≠ 0 ∧
    GET_SIZE stG.mem (HDRP (NEXT_BLKP stG.mem 16)) ≠ 0 := by
  decide

/-- C3.  `mm_realloc` is an empty stub: for every state, pointer and size
it performs no heap mutation and defines no return pointer, so in
particular it never returns the argument pointer unchanged as the claim
requires. -/
theorem mm_realloc_is_stub (st : MMState) (ptr size : Nat) :
    mm_realloc st ptr size = (st, none) :=
  rfl

/-- C4.  In the reachable state `stB` the trailing block (payload 32, the
block whose successor position 40 is the code's own epilogue write) is
free with size 8, and the heap ends at `brk = 40`.  `extend_heap 16` is
required by the claim to request 16 - 8 = 8 bytes and to write a fresh
epilogue immediately after the laid block.  Instead the code requests the
full 16 bytes (`brk` grows to 56, not 48), and after the merge the
resulting free block (header at 28, size 24) ends at byte 52 where no
epilogue is written (`stE.mem 52 = 0`); the `PACK(0,1)` epilogue word is
written at 56 instead. -/
theorem extend_heap_ignores_trailing_free_block :
    GET_ALLOC stB.mem (HDRP 32) = 0 ∧ GET_SIZE stB.mem (HDRP 32) = 8 ∧
    NEXT_BLKP stB.mem 32 = 40 ∧ stB.brk = 40 ∧
    stE.brk = 56 ∧ stE.brk ≠ stB.brk + (16 - GET_SIZE stB.mem (HDRP 32)) ∧
    GET_SIZE stE.mem (HDRP 32) = 24 ∧ GET_ALLOC stE.mem (HDRP 32) = 0 ∧
    stE.mem 52 = 0 ∧ stE.mem 52 ≠ PACK 0 1 ∧ stE.mem 56 = PACK 0 1 := by
  decide

/-- C8.  init; p = malloc(16); free(p); malloc(8): the first malloc returns
payload 16, and the final malloc again returns payload 16 — the same
address — without growing the heap (`brk` stays 40). -/
theorem malloc_free_malloc_reuses_block :
    rA = PtrRes.ok stA 16 ∧ rB = PtrRes.ok stB 16 ∧ stB.brk = stF.brk :=
  ⟨rfl, rfl, rfl⟩

/-- C5 (counterexample).  In state `stF` the first-fit free block (payload
16) has size 24 and the needed size for `malloc(8)` is `ALIGN(8+8) = 16`:
the excess 8 is smaller than the spec's minimum block size 16, so the
claim requires the whole 24-byte block to be allocated with no split.
Instead the code splits: the returned block's header records size 16, and
a new free block of size 8 — smaller than the spec's minimum — is created
at payload 32. -/
theorem split_below_min_counterexample :
    GET_ALLOC stF.mem (HDRP 16) = 0 ∧ GET_SIZE stF.mem (HDRP 16) = 24 ∧
    ALIGN (8 + 8) = 16 ∧
    GET_SIZE stF.mem (HDRP 16) - ALIGN (8 + 8) < minBlockSizeSpec ∧
    rB.bpD = 16 ∧
    GET_SIZE stB.mem (HDRP 16) = 16 ∧
    GET_SIZE stB.mem (HDRP 16) ≠ GET_SIZE stF.mem (HDRP 16) ∧
    GET_ALLOC stB.mem (HDRP 32) = 0 ∧
    GET_SIZE stB.mem (HDRP 32) < minBlockSizeSpec := by
  decide

/-- C10.  Freeing a live block whose predecessor block is allocated writes
exactly the block's header and footer words — each becomes
`PACK(size, 0)`, so the recorded size is unchanged and the allocated bit
is cleared — and leaves every other heap word and the break untouched.
The hypotheses say the block and its predecessor have nonzero (hence
≥ 8-byte) sizes, the predecessor lies inside the heap, and the
predecessor's header carries a set allocated bit. -/
theorem mm_free_frame (st : MMState) (ptr : Nat)
    (hsz : 0 < GET_SIZE st.mem (HDRP ptr))
    (hprevsz : 0 < GET_SIZE st.mem (ptr - 8))
    (hlo : GET_SIZE st.mem (ptr - 8) + 8 ≤ ptr)
    (hpred : GET_ALLOC st.mem (HDRP (PREV_BLKP st.mem ptr)) ≠ 0) :
    (mm_free st ptr).brk = st.brk ∧
    GET_SIZE (mm_free st ptr).mem (HDRP ptr) = GET_SIZE st.mem (HDRP ptr) ∧
    GET_ALLOC (mm_free st ptr).mem (HDRP ptr) = 0 ∧
    GET_SIZE (mm_free st ptr).mem (ptr + GET_SIZE st.mem (HDRP ptr) - 8)
      = GET_SIZE st.mem (HDRP ptr) ∧
    GET_ALLOC (mm_free st ptr).mem (ptr + GET_SIZE st.mem (HDRP ptr) - 8) = 0 ∧
    ∀ q, q ≠ HDRP ptr → q ≠ ptr + GET_SIZE st.mem (HDRP ptr) - 8 →
      (mm_free st ptr).mem q = st.mem q := by
  have h8size : 8 ∣ GET_SIZE st.mem (HDRP ptr) := GET_SIZE_dvd _ _
  have h8s8 : 8 ∣ GET_SIZE st.mem (ptr - 8) := GET_SIZE_dvd _ _
  have hszlt : GET_SIZE st.mem (HDRP ptr) < W32 := GET_SIZE_lt _ _
  have hsz8 : 8 ≤ GET_SIZE st.mem (HDRP ptr) := Nat.le_of_dvd hsz h8size
  have hs88 : 8 ≤ GET_SIZE st.mem (ptr - 8) := Nat.le_of_dvd hprevsz h8s8
  have hptr16 : 16 ≤ ptr := by omega
  have hh : HDRP ptr = ptr - 4 := rfl
  have hP0 : PACK (GET_SIZE st.mem (HDRP ptr)) 0 = GET_SIZE st.mem (HDRP ptr) :=
    PACK_zero _
  have hs8m : GET_SIZE (freedMem st.mem ptr) (ptr - 8) = GET_SIZE st.mem (ptr - 8) := by
    rw [freedMem_footer, GET_SIZE_PUT_ne _ _ _ _ (by omega), hh,
      GET_SIZE_PUT_ne _ _ _ _ (by omega)]
  have hhp : HDRP (ptr - GET_SIZE st.mem (ptr - 8)) = ptr - GET_SIZE st.mem (ptr - 8) - 4 :=
    rfl
  have hcond :
      GET_ALLOC (freedMem st.mem ptr) (HDRP (ptr - GET_SIZE st.mem (ptr - 8))) ≠ 0 := by
    rw [freedMem_footer, hhp, GET_ALLOC_PUT_ne _ _ _ _ (by omega), hh,
      GET_ALLOC_PUT_ne _ _ _ _ (by omega)]
    have hp : PREV_BLKP st.mem ptr = ptr - GET_SIZE st.mem (ptr - 8) := rfl
    rw [hp, hhp] at hpred
    exact hpred
  have hco : mm_free st ptr = { st with mem := freedMem st.mem ptr } := by
    rw [mm_free_eq]
    simp only [coalesce]
    have hprev : PREV_BLKP (freedMem st.mem ptr) ptr = ptr - GET_SIZE st.mem (ptr - 8) := by
      rw [PREV_BLKP, hs8m]
    rw [hprev, if_pos hcond]
  rw [hco]
  refine ⟨rfl, ?_, ?_, ?_, ?_, ?_⟩
  · show GET_SIZE (freedMem st.mem ptr) (HDRP ptr) = _
    rw [freedMem_footer, GET_SIZE_PUT_ne _ _ _ _ (by omega), hP0,
      GET_SIZE_PUT_eq _ _ _ h8size hszlt]
  · show GET_ALLOC (freedMem st.mem ptr) (HDRP ptr) = 0
    rw [freedMem_footer, GET_ALLOC_PUT_ne _ _ _ _ (by omega), hP0, GET_ALLOC, GET_PUT_eq,
      Nat.mod_eq_of_lt hszlt]
    omega
  · show GET_SIZE (freedMem st.mem ptr) _ = _
    rw [freedMem_footer, hP0, GET_SIZE_PUT_eq _ _ _ h8size hszlt]
  · show GET_ALLOC (freedMem st.mem ptr) _ = 0
    rw [freedMem_footer, hP0, GET_ALLOC, GET_PUT_eq, Nat.mod_eq_of_lt hszlt]
    omega
  · intro q hq1 hq2
    show freedMem st.mem ptr q = st.mem q
    rw [freedMem_footer, PUT_ne _ _ _ _ hq2, PUT_ne _ _ _ _ hq1]

/-- C5 (amended).  Under exactly the conditions in which `mm_malloc`
invokes `split` — the found free block's size is at least the needed
`newsize = ALIGN(size + 8)` (a positive multiple of 8 below 2^32) and
differs from it; `bp` is a payload pointer past the prologue header — the
split writes a free header for the remainder block at `bp + newsize - 4`
whose recorded size is the excess `GET_SIZE - newsize`, and that excess is
always at least 8 bytes (one alignment unit: a header plus a footer with
no payload, the code's effective minimum block size).  The allocated part
keeps exactly `newsize`.  So the code splits on any nonzero excess — even
one below the spec's 16-byte minimum block — but the free block it
creates is never smaller than 8 bytes. -/
theorem split_remainder_at_least_8 (st : MMState) (bp newsize : Nat)
    (hbp : 8 ≤ bp) (hns : 8 ≤ newsize) (h8 : 8 ∣ newsize) (hw : newsize < W32)
    (hge : newsize ≤ GET_SIZE st.mem (HDRP bp))
    (hne : GET_SIZE st.mem (HDRP bp) ≠ newsize) :
    8 ≤ GET_SIZE st.mem (HDRP bp) - newsize ∧
    GET_SIZE (split st bp newsize).mem (bp + newsize - 4)
      = GET_SIZE st.mem (HDRP bp) - newsize ∧
    GET_ALLOC (split st bp newsize).mem (bp + newsize - 4) = 0 ∧
    GET_SIZE (split st bp newsize).mem (HDRP bp) = newsize ∧
    GET_ALLOC (split st bp newsize).mem (HDRP bp) = 1 := by
  have hS8 : 8 ∣ GET_SIZE st.mem (HDRP bp) := GET_SIZE_dvd _ _
  have hSlt : GET_SIZE st.mem (HDRP bp) < W32 := GET_SIZE_lt _ _
  have hW8 : (8 : Nat) ∣ W32 := by decide
  have hh : HDRP bp = bp - 4 := rfl
  rw [hh] at hge hne hS8 hSlt ⊢
  have hR8 : 8 ∣ (GET_SIZE st.mem (bp - 4) - newsize) := Nat.dvd_sub' hS8 h8
  have hRge : 8 ≤ GET_SIZE st.mem (bp - 4) - newsize := by omega
  have hRlt : GET_SIZE st.mem (bp - 4) - newsize < W32 := by omega
  have hnw : newsize + 1 < W32 := by omega
  have e1 : GET_SIZE (PUT st.mem (bp - 4) (newsize + 1)) (bp - 4) = newsize := by
    rw [GET_SIZE, GET_PUT_eq, Nat.mod_eq_of_lt hnw]
    omega
  have e2 : GET_SIZE (PUT (PUT st.mem (bp - 4) (newsize + 1))
      (bp + newsize - 8) (newsize + 1)) (bp - 4) = newsize := by
    rw [GET_SIZE_PUT_ne _ _ _ _ (by omega), e1]
  have e3 : GET_SIZE (PUT (PUT (PUT st.mem (bp - 4) (newsize + 1))
      (bp + newsize - 8) (newsize + 1))
      (bp + newsize - 4) (GET_SIZE st.mem (bp - 4) - newsize)) (bp - 4) = newsize := by
    rw [GET_SIZE_PUT_ne _ _ _ _ (by omega), e2]
  have e4 : GET_SIZE (PUT (PUT (PUT st.mem (bp - 4) (newsize + 1))
      (bp + newsize - 8) (newsize + 1))
      (bp + newsize - 4) (GET_SIZE st.mem (bp - 4) - newsize)) (bp + newsize - 4)
      = GET_SIZE st.mem (bp - 4) - newsize :=
    GET_SIZE_PUT_eq _ _ _ hR8 hRlt
  have hmem : (split st bp newsize).mem =
      PUT (PUT (PUT (PUT st.mem (bp - 4) (newsize + 1))
          (bp + newsize - 8) (newsize + 1))
        (bp + newsize - 4) (GET_SIZE st.mem (bp - 4) - newsize))
        (bp + newsize + (GET_SIZE st.mem (bp - 4) - newsize) - 8)
        (GET_SIZE st.mem (bp - 4) - newsize) := by
    simp only [split, FTRP, NEXT_BLKP, HDRP]
    rw [PACK_one newsize h8, PACK_zero, e1, e2, e3, e4]
  refine ⟨hRge, ?_, ?_, ?_, ?_⟩
  · rw [hmem, GET_SIZE_PUT_ne _ _ _ _ (by omega), e4]
  · rw [hmem, GET_ALLOC_PUT_ne _ _ _ _ (by omega), GET_ALLOC, GET_PUT_eq,
      Nat.mod_eq_of_lt hRlt]
    omega
  · rw [hmem, GET_SIZE_PUT_ne _ _ _ _ (by omega), e3]
  · rw [hmem, GET_ALLOC_PUT_ne _ _ _ _ (by omega), GET_ALLOC_PUT_ne _ _ _ _ (by omega),
      GET_ALLOC_PUT_ne _ _ _ _ (by omega), GET_ALLOC, GET_PUT_eq,
      Nat.mod_eq_of_lt hnw]
    omega

theorem mallocLoop_firstFit (st : MMState) (newsize : Nat) :
    ∀ fuel current bp,
      (blocksFrom st.mem fuel current).find? (fun b => decide (isFit st.mem newsize b))
        = some bp →
      ∃ st', mallocLoop st newsize fuel current = .ok st' bp ∧ st'.brk = st.brk := by
  intro fuel
  induction fuel with
  | zero =>
    intro current bp h
    simp [blocksFrom] at h
  | succ n ih =>
    intro current bp h
    simp only [blocksFrom] at h
    by_cases h0 : GET_SIZE st.mem (HDRP current) = 0
    · rw [if_pos h0] at h
      simp at h
    · rw [if_neg h0] at h
      by_cases hfit : isFit st.mem newsize current
      · rw [List.find?_cons_of_pos _ (by simpa using hfit)] at h
        obtain rfl : current = bp := Option.some.inj h
        simp only [mallocLoop]
        rw [if_neg h0, if_pos hfit]
        by_cases hsz : GET_SIZE st.mem (HDRP current) ≠ newsize
        · rw [if_pos hsz]
          exact ⟨_, rfl, rfl⟩
        · rw [if_neg hsz]
          exact ⟨_, rfl, rfl⟩
      · rw [List.find?_cons_of_neg _ (by simpa using hfit)] at h
        simp only [mallocLoop]
        rw [if_neg h0, if_neg hfit]
        exact ih (NEXT_BLKP st.mem current) bp h

/-- C6.  First fit: whenever, starting from `heap_startp` (the prologue
block, which the hypothesis `hpro` requires to be allocated, so that the
scan effectively begins just after the prologue), the walk of the block
list contains a free block of size at least `ALIGN(size + 8)`, `mm_malloc`
returns the payload pointer of the first such block in address order and
the break is unchanged — the heap is not grown. -/
theorem mm_malloc_first_fit (st : MMState) (size fuel bp : Nat)
    (_hpro : GET_ALLOC st.mem (HDRP st.heap_startp) = 1)
    (hfind : (blocksFrom st.mem fuel st.heap_startp).find?
        (fun b => decide (isFit st.mem (ALIGN (size + 8)) b)) = some bp) :
    ∃ st', mm_malloc st size fuel = .ok st' bp ∧ st'.brk = st.brk :=
  mallocLoop_firstFit st (ALIGN (size + 8)) fuel st.heap_startp bp hfind

/-- C6 witness: on the concrete heap `stF` (a freed 24-byte block at
payload 16), `malloc(8)` needs 16 bytes and the walk
`[8, 16]` has its first (and only) fit at payload 16, which is what the
call returns, with the break left at 40. -/
theorem mm_malloc_first_fit_witness :
    ∃ st', mm_malloc stF 8 9 = .ok st' 16 ∧ st'.brk = stF.brk :=
  mm_malloc_first_fit stF 8 9 16 (by decide) (by decide)

/-- C5 witness: state `stF`, found block at payload 16 (size 24), needed
size 16: the remainder free block gets size 8. -/
theorem split_remainder_at_least_8_witness :
    8 ≤ GET_SIZE stF.mem (HDRP 16) - 16 ∧
    GET_SIZE (split stF 16 16).mem (16 + 16 - 4) = GET_SIZE stF.mem (HDRP 16) - 16 ∧
    GET_ALLOC (split stF 16 16).mem (16 + 16 - 4) = 0 ∧
    GET_SIZE (split stF 16 16).mem (HDRP 16) = 16 ∧
    GET_ALLOC (split stF 16 16).mem (HDRP 16) = 1 :=
  split_remainder_at_least_8 stF 16 16 (by decide) (by decide) (by decide) (by decide)
    (by decide) (by decide)

/-- C10 witness: freeing the block at payload 16 of `stA` (size 24,
predecessor = the allocated prologue) keeps the break, clears the
allocated bit while keeping size 24, and leaves the prologue footer word
at address 8 untouched. -/
theorem mm_free_frame_witness :
    (mm_free stA 16).brk = stA.brk ∧
    GET_SIZE (mm_free stA 16).mem (HDRP 16) = GET_SIZE stA.mem (HDRP 16) ∧
    GET_ALLOC (mm_free stA 16).mem (HDRP 16) = 0 ∧
    (mm_free stA 16).mem 8 = stA.mem 8 := by
  have h := mm_free_frame stA 16 (by decide) (by decide) (by decide) (by decide)
  exact ⟨h.1, h.2.1, h.2.2.1, h.2.2.2.2.2 8 (by decide) (by decide)⟩

theorem extendCore_null (st : MMState) (k : Nat) (st' : MMState)
    (h : extendCore st k = .null st') : st' = st ∧ mem_sbrk st k = none := by
  cases hsb : mem_sbrk st k with
  | none =>
    have he : extendCore st k = .null st := by
      unfold extendCore
      rw [hsb]
    rw [he] at h
    exact ⟨(PtrRes.null.inj h).symm, rfl⟩
  | some pr =>
    obtain ⟨st1, bp0⟩ := pr
    have he : ∃ s2, extendCore st k
        = .ok (coalesce s2 bp0).1 (coalesce s2 bp0).2 := by
      unfold extendCore
      rw [hsb]
      exact ⟨_, rfl⟩
    obtain ⟨s2, he⟩ := he
    rw [he] at h
    exact PtrRes.noConfusion h

theorem extend_heap_null (st : MMState) (n : Nat) (st' : MMState)
    (h : extend_heap st n = .null st') :
    st' = st ∧ ∃ k, k ≤ n ∧ mem_sbrk st k = none := by
  simp only [extend_heap] at h
  by_cases hfree : GET_ALLOC st.mem (HDRP (PREV_BLKP st.mem (mem_heap_hi st - 3))) = 0
  · rw [if_pos hfree] at h
    by_cases hlt : GET_SIZE st.mem (HDRP (PREV_BLKP st.mem (mem_heap_hi st - 3))) < n
    · rw [if_pos hlt] at h
      obtain ⟨h1, h2⟩ := extendCore_null st _ st' h
      exact ⟨h1, _, Nat.sub_le _ _, h2⟩
    · rw [if_neg hlt] at h
      exact PtrRes.noConfusion h
  · rw [if_neg hfree] at h
    obtain ⟨h1, h2⟩ := extendCore_null st n st' h
    exact ⟨h1, n, le_refl n, h2⟩

theorem placeAt_eq (st0 : MMState) (bp n : Nat) :
    placeAt st0 bp n = .ok { st0 with mem := placedMem st0.mem bp n } bp := rfl

theorem extendAndPlace_ok (st : MMState) (ns : Nat) (st1 : MMState) (bp : Nat)
    (hx : extend_heap st ns = .ok st1 bp) :
    extendAndPlace st ns = placeAt st1 bp ns := by
  unfold extendAndPlace
  rw [hx]

theorem extendAndPlace_null (st : MMState) (ns : Nat) (st1 : MMState)
    (hx : extend_heap st ns = .null st1) :
    extendAndPlace st ns = .null st1 := by
  unfold extendAndPlace
  rw [hx]

theorem extendAndPlace_abort (st : MMState) (ns : Nat)
    (hx : extend_heap st ns = .abortAssert) :
    extendAndPlace st ns = .abortAssert := by
  unfold extendAndPlace
  rw [hx]

theorem extendAndPlace_diverge (st : MMState) (ns : Nat)
    (hx : extend_heap st ns = .diverge) :
    extendAndPlace st ns = .diverge := by
  unfold extendAndPlace
  rw [hx]

theorem mallocLoop_null (st : MMState) (ns : Nat) :
    ∀ fuel current st', mallocLoop st ns fuel current = .null st' →
      st' = st ∧ ∃ k, k ≤ ns ∧ mem_sbrk st k = none := by
  intro fuel
  induction fuel with
  | zero =>
    intro c st' h
    exact PtrRes.noConfusion h
  | succ n ih =>
    intro c st' h
    simp only [mallocLoop] at h
    by_cases h0 : GET_SIZE st.mem (HDRP c) = 0
    · rw [if_pos h0] at h
      cases hx : extend_heap st ns with
      | ok st1 bp =>
        rw [extendAndPlace_ok st ns st1 bp hx, placeAt_eq] at h
        exact PtrRes.noConfusion h
      | null st1 =>
        rw [extendAndPlace_null st ns st1 hx] at h
        rcases PtrRes.null.inj h with rfl
        exact extend_heap_null st ns _ hx
      | abortAssert =>
        rw [extendAndPlace_abort st ns hx] at h
        exact PtrRes.noConfusion h
      | diverge =>
        rw [extendAndPlace_diverge st ns hx] at h
        exact PtrRes.noConfusion h
    · rw [if_neg h0] at h
      by_cases hfit : isFit st.mem ns c
      · rw [if_pos hfit, placeAt_eq] at h
        exact PtrRes.noConfusion h
      · rw [if_neg hfit] at h
        exact ih _ _ h

/-- C7.  If `mm_malloc` returns the failure sentinel (`NULL`), the
allocator state — every heap word, hence every prior block's size and
allocated tag, together with the break — is exactly the state before the
call, and the growth primitive itself failed during the call: some
`mem_sbrk` request of at most the needed `ALIGN(size + 8)` bytes returned
its failure value on that state. -/
theorem mm_malloc_oom (st : MMState) (size fuel : Nat) (st' : MMState)
    (h : mm_malloc st size fuel = .null st') :
    st' = st ∧ ∃ k, k ≤ ALIGN (size + 8) ∧ mem_sbrk st k = none :=
  mallocLoop_null st (ALIGN (size + 8)) fuel st.heap_startp st' h

/-- C7 witness: a 16-byte-capacity heap is exhausted by `mm_init`, so
`malloc(16)` returns `NULL` with the state unchanged and a failed growth
request of at most 24 bytes. -/
theorem mm_malloc_oom_witness :
    stI16 = stI16 ∧ ∃ k, k ≤ ALIGN (16 + 8) ∧ mem_sbrk stI16 k = none :=
  mm_malloc_oom stI16 16 9 stI16 rfl

theorem PUT_PUT_same_val (m : Mem) (p q v : Nat) : PUT (PUT m p v) q v p = v := by
  by_cases h : p = q
  · rw [h, PUT_self]
  · rw [PUT_ne _ _ _ _ h, PUT_self]

theorem placedMem_hdr (m : Mem) (bp n : Nat) : placedMem m bp n (HDRP bp) = PACK n 1 :=
  PUT_PUT_same_val m (HDRP bp) (FTRP (PUT m (HDRP bp) (PACK n 1)) bp) (PACK n 1)

theorem placedMem_hdr8 (m : Mem) (bp : Nat) :
    GET_SIZE (placedMem m bp 8) (HDRP bp) = 8 ∧ GET_ALLOC (placedMem m bp 8) (HDRP bp) = 1 := by
  constructor
  · rw [GET_SIZE, GET, placedMem_hdr]
    decide
  · rw [GET_ALLOC, GET, placedMem_hdr]
    decide

theorem coalesce_snd_aligned (st0 : MMState) (bp : Nat) (h : 8 ∣ bp) :
    8 ∣ (coalesce st0 bp).2 := by
  unfold coalesce
  by_cases hc : GET_ALLOC st0.mem (HDRP (PREV_BLKP st0.mem bp)) ≠ 0
  · rw [if_pos hc]
    exact h
  · rw [if_neg hc]
    exact Nat.dvd_sub' h (GET_SIZE_dvd _ _)

theorem extendCore_ok_aligned (st : MMState) (k : Nat) (st1 : MMState) (b : Nat)
    (hbrk : 8 ∣ st.brk) (h : extendCore st k = .ok st1 b) : 8 ∣ b := by
  by_cases hle : st.brk + k ≤ st.maxHeap
  · have hsb : mem_sbrk st k = some ({ st with brk := st.brk + k }, st.brk) := by
      rw [mem_sbrk, if_pos hle]
    have he : ∃ s2, extendCore st k
        = .ok (coalesce s2 st.brk).1 (coalesce s2 st.brk).2 := by
      unfold extendCore
      rw [hsb]
      exact ⟨_, rfl⟩
    obtain ⟨s2, he⟩ := he
    rw [he] at h
    obtain ⟨-, hb⟩ := PtrRes.ok.inj h
    rw [← hb]
    exact coalesce_snd_aligned s2 st.brk hbrk
  · have hsb : mem_sbrk st k = none := by
      rw [mem_sbrk, if_neg hle]
    have he : extendCore st k = .null st := by
      unfold extendCore
      rw [hsb]
    rw [he] at h
    exact PtrRes.noConfusion h

theorem extend_heap_ok_aligned (st : MMState) (n : Nat) (st1 : MMState) (b : Nat)
    (hbrk : 8 ∣ st.brk) (h : extend_heap st n = .ok st1 b) : 8 ∣ b := by
  simp only [extend_heap] at h
  by_cases hfree : GET_ALLOC st.mem (HDRP (PREV_BLKP st.mem (mem_heap_hi st - 3))) = 0
  · rw [if_pos hfree] at h
    by_cases hlt : GET_SIZE st.mem (HDRP (PREV_BLKP st.mem (mem_heap_hi st - 3))) < n
    · rw [if_pos hlt] at h
      exact extendCore_ok_aligned st _ st1 b hbrk h
    · rw [if_neg hlt] at h
      exact PtrRes.noConfusion h
  · rw [if_neg hfree] at h
    exact extendCore_ok_aligned st n st1 b hbrk h

theorem mallocLoop_zero_props (st : MMState) :
    ∀ fuel current st' bp, mallocLoop st 8 fuel current = .ok st' bp →
      (GET_SIZE st'.mem (HDRP bp) = 8 ∧ GET_ALLOC st'.mem (HDRP bp) = 1) ∧
      (8 ∣ current → 8 ∣ st.brk → 8 ∣ bp) := by
  intro fuel
  induction fuel with
  | zero =>
    intro c st' bp h
    exact PtrRes.noConfusion h
  | succ n ih =>
    intro c st' bp h
    simp only [mallocLoop] at h
    by_cases h0 : GET_SIZE st.mem (HDRP c) = 0
    · rw [if_pos h0] at h
      cases hx : extend_heap st 8 with
      | ok st1 b =>
        rw [extendAndPlace_ok st 8 st1 b hx, placeAt_eq] at h
        obtain ⟨hst, hbp⟩ := PtrRes.ok.inj h
        rw [← hst, ← hbp]
        refine ⟨placedMem_hdr8 _ _, fun _ hbrk => ?_⟩
        exact extend_heap_ok_aligned st 8 st1 b hbrk hx
      | null st1 =>
        rw [extendAndPlace_null st 8 st1 hx] at h
        exact PtrRes.noConfusion h
      | abortAssert =>
        rw [extendAndPlace_abort st 8 hx] at h
        exact PtrRes.noConfusion h
      | diverge =>
        rw [extendAndPlace_diverge st 8 hx] at h
        exact PtrRes.noConfusion h
    · rw [if_neg h0] at h
      by_cases hfit : isFit st.mem 8 c
      · rw [if_pos hfit, placeAt_eq] at h
        obtain ⟨hst, hbp⟩ := PtrRes.ok.inj h
        rw [← hst, ← hbp]
        exact ⟨placedMem_hdr8 _ _, fun hcur _ => hcur⟩
      · rw [if_neg hfit] at h
        obtain ⟨hp, ha⟩ := ih _ _ _ h
        refine ⟨hp, fun hcur hbrk => ?_⟩
        exact ha (Nat.dvd_add hcur (GET_SIZE_dvd _ _)) hbrk

/-- C9.  Whenever `mm_malloc` with requested size 0 returns a payload
pointer `bp`, the returned block's header records total size 8 — header
plus footer with zero usable payload bytes (`ALIGN(0 + 8) = 8`) — with the
allocated bit set; and if the scan start and the break are 8-byte aligned
(as in every heap built by the allocator), the returned payload pointer is
8-byte aligned.  So a zero-byte request is served as a minimum-size
allocation, not rejected. -/
theorem malloc_zero_min_allocation (st : MMState) (fuel : Nat) (st' : MMState) (bp : Nat)
    (h : mm_malloc st 0 fuel = .ok st' bp) :
    GET_SIZE st'.mem (HDRP bp) = 8 ∧ GET_ALLOC st'.mem (HDRP bp) = 1 ∧
      (8 ∣ st.heap_startp → 8 ∣ st.brk → 8 ∣ bp) := by
  obtain ⟨⟨h1, h2⟩, h3⟩ := mallocLoop_zero_props st fuel st.heap_startp st' bp h
  exact ⟨h1, h2, h3⟩

/-- C9 witness: on the freshly initialised heap `stI`, `malloc(0)` returns
payload 16, an allocated block of total size 8 at an 8-byte-aligned
address. -/
theorem malloc_zero_min_allocation_witness :
    GET_SIZE st9E.mem (HDRP 16) = 8 ∧ GET_ALLOC st9E.mem (HDRP 16) = 1 ∧ 8 ∣ 16 := by
  have h := malloc_zero_min_allocation stI 9 st9E 16 rfl
  exact ⟨h.1, h.2.1, h.2.2 (by decide) (by decide)⟩

end MM
